import Mathlib

/-!
Shallow embedding of the CopyMate clipboard-history core
(`src/copymate/src-tauri/src/lib.rs`) and verification of its
specification.

The Rust code keeps a `VecDeque<ClipboardItem>` (newest at the front)
behind a mutex, a boolean "ignore next clipboard change" flag behind a
mutex, and a polling thread.  We model the deque as a `List`
(head = front), a lock acquisition as always succeeding, the clock as an
explicit `timestamp : Nat` parameter (the code reads
`SystemTime::now()` at each insertion), and the OS clipboard read as an
`Option String` parameter of one monitor iteration (`none` models a
failed read).  Side effects that escape the core (event emission to the
frontend, thread spawning) are modelled as explicit event traces and
counters.
-/

/-- Model of Rust's `str::trim`: the string with leading and trailing
whitespace removed.  (Defined on the character list so that it reduces
inside the kernel on concrete inputs.) -/
def rustTrim (s : String) : String :=
  ⟨((s.data.dropWhile Char.isWhitespace).reverse.dropWhile Char.isWhitespace).reverse⟩

/-- Mirrors the Rust `ClipboardItem` struct: id, content, timestamp,
content type ("text"). -/
structure ClipboardItem where
  id : Nat
  content : String
  timestamp : Nat
  content_type : String
deriving DecidableEq

/-- The history store: the `VecDeque<ClipboardItem>` with the newest
item at the front, modelled as a list whose head is the front. -/
abbrev History := List ClipboardItem

/-- The duplicate check of `add_item_to_history` (and its inlined copy
in the monitor loop): `if let Some(latest) = history_guard.front() {
if latest.content == content { ... } }`. -/
def isDuplicateOfFront (content : String) (history : History) : Bool :=
  match history.head? with
  | some latest => latest.content == content
  | none => false

/-- Mirrors the Rust helper `add_item_to_history(content, history)`.
Returns the Rust function's result (always `Ok(())` when the lock
succeeds, which the model assumes) together with the new store.
Source order: reject if `content.trim().is_empty()`; reject if the
front item's content equals `content` (untrimmed); otherwise build an
item with `id = timestamp + len`, `push_front` it, and `pop_back` when
the length exceeds 100. -/
def add_item_to_history (content : String) (timestamp : Nat)
    (history : History) : Except String Unit × History :=
  if (rustTrim content).isEmpty then
    (Except.ok (), history)
  else if isDuplicateOfFront content history then
    (Except.ok (), history)
  else
    let id := timestamp + history.length
    let item : ClipboardItem := ⟨id, content, timestamp, "text"⟩
    let pushed := item :: history
    let bounded := if pushed.length > 100 then pushed.dropLast else pushed
    (Except.ok (), bounded)

/-- Run a sequence of `(timestamp, content)` insertions through
`add_item_to_history`, starting from a given store. -/
def runInserts (ops : List (Nat × String)) (history : History) : History :=
  ops.foldl (fun acc op => (add_item_to_history op.2 op.1 acc).2) history

/-- Observable actions of one monitor-loop iteration, in program order:
a `push_front` into the history store, and an emission of the
"clipboard-updated" event with the new content as payload. -/
inductive Event where
  | inserted (item : ClipboardItem)
  | emitted (content : String)
deriving DecidableEq

/-- The mutable state reachable from the monitor loop: the shared
history store, the shared `IgnoreNextClipboard` flag, and the loop-local
`last_clipboard_content` variable. -/
structure SysState where
  history : History
  ignoreFlag : Bool
  lastClipboard : String
deriving DecidableEq

/-- One iteration of the polling loop spawned by
`start_clipboard_monitoring` (after the 500 ms sleep).  `readResult`
models `app.clipboard().read_text()` (`none` = `Err`), `timestamp`
models the `SystemTime::now()` call of this iteration.  Faithful to the
source: a failed read or an unchanged/whitespace-only value does
nothing; an armed ignore flag is consumed and `last_clipboard_content`
is updated; a value equal to the front entry's content hits `continue`,
skipping the `last_clipboard_content = current_content` assignment at
the bottom of the block; otherwise the item is pushed (with the same
id/bounding logic as `add_item_to_history`), the event is emitted while
the insertion is already visible, and `last_clipboard_content` is
updated. -/
def monitorStep (readResult : Option String) (timestamp : Nat)
    (s : SysState) : SysState × List Event :=
  match readResult with
  | none => (s, [])
  | some current_content =>
    if current_content ≠ s.lastClipboard ∧ (rustTrim current_content).isEmpty = false then
      if s.ignoreFlag then
        ({ history := s.history, ignoreFlag := false,
           lastClipboard := current_content }, [])
      else if isDuplicateOfFront current_content s.history then
        (s, [])
      else
        let id := timestamp + s.history.length
        let item : ClipboardItem := ⟨id, current_content, timestamp, "text"⟩
        let pushed := item :: s.history
        let bounded := if pushed.length > 100 then pushed.dropLast else pushed
        ({ history := bounded, ignoreFlag := s.ignoreFlag,
           lastClipboard := current_content },
         [Event.inserted item, Event.emitted current_content])
    else (s, [])

/-- A run of consecutive monitor iterations; returns the final state and
the concatenated event trace, in order. -/
def monitorRun (polls : List (Option String × Nat)) (s : SysState) :
    SysState × List Event :=
  match polls with
  | [] => (s, [])
  | (r, t) :: rest =>
    let step := monitorStep r t s
    let next := monitorRun rest step.1
    (next.1, step.2 ++ next.2)

/-- The contents of the `inserted` events of a trace, in order. -/
def insertedContents : List Event → List String
  | [] => []
  | Event.inserted item :: rest => item.content :: insertedContents rest
  | Event.emitted _ :: rest => insertedContents rest

/-- The payloads of the `emitted` events of a trace, in order. -/
def emittedContents : List Event → List String
  | [] => []
  | Event.inserted _ :: rest => emittedContents rest
  | Event.emitted c :: rest => c :: emittedContents rest

/-- The `arm()` operation of the suppression gate: the body of the first
block of `copy_to_clipboard`, `*ignore_guard = true`. -/
def armGate (_armed : Bool) : Bool := true

/-- The `check_and_clear()` operation of the suppression gate, as inlined
in the monitor loop: read the flag, reset it to false if it was set, and
return the value read.  Result: (value read, new flag). -/
def check_and_clear (armed : Bool) : Bool × Bool :=
  if armed then (true, false) else (false, armed)

/-- `n` consecutive `check_and_clear()` calls: the list of returned
values, and the final flag. -/
def runChecks : Nat → Bool → List Bool × Bool
  | 0, armed => ([], armed)
  | n + 1, armed =>
    let c := check_and_clear armed
    let rest := runChecks n c.2
    (c.1 :: rest.1, rest.2)

/-- Events of `copy_to_clipboard`, in program order. -/
inductive CopyEvent where
  | armed
  | wroteAttempt (content : String)
deriving DecidableEq

/-- Mirrors the Tauri command `copy_to_clipboard(content)`acting on the
ignore flag.  `writeResult` models the outcome of
`app.clipboard().write_text(content)`.  Source order: set the ignore
flag to true, then attempt the OS write; a write error is mapped to an
`Err` with a formatted message and returned, after the flag was already
set.  Returns (result, final flag, trace). -/
def copy_to_clipboard (content : String) (writeResult : Except String Unit)
    (ignoreFlag : Bool) : Except String Unit × Bool × List CopyEvent :=
  let armed := armGate ignoreFlag
  match writeResult with
  | Except.ok () =>
    (Except.ok (), armed, [CopyEvent.armed, CopyEvent.wroteAttempt content])
  | Except.error e =>
    (Except.error ("Failed to write to clipboard: " ++ e), armed,
     [CopyEvent.armed, CopyEvent.wroteAttempt content])

/-- Mirrors the Tauri command `add_to_history(content)`: it forwards to
`add_item_to_history` and performs no event emission — its trace of
`Event`s is empty.  Returns (result, new store, trace). -/
def add_to_history (content : String) (timestamp : Nat)
    (history : History) : Except String Unit × History × List Event :=
  let r := add_item_to_history content timestamp history
  (r.1, r.2, ([] : List Event))

/-- Mirrors the Tauri command `clear_clipboard_history()`: empties the
shared store and touches nothing else. -/
def clear_clipboard_history (s : SysState) : Except String Unit × SysState :=
  (Except.ok (), { s with history := [] })

/-- Mirrors the Tauri command `start_clipboard_monitoring()`: the body
unconditionally calls `thread::spawn` on the polling loop and returns
`Ok(())`; there is no check whether a monitor is already running.  The
argument counts the monitor loops already spawned in this session. -/
def start_clipboard_monitoring (monitorThreads : Nat) :
    Except String Unit × Nat :=
  (Except.ok (), monitorThreads + 1)

/-- The ids assigned by a run of `add_item_to_history` insertions, in
insertion order (rejected calls assign no id). -/
def runIds (ops : List (Nat × String)) (history : History) : List Nat :=
  match ops with
  | [] => []
  | (t, c) :: rest =>
    if (rustTrim c).isEmpty = false ∧ isDuplicateOfFront c history = false then
      (t + history.length) :: runIds rest (add_item_to_history c t history).2
    else
      runIds rest (add_item_to_history c t history).2

/-- Boolean check that each element of an operation list has a content
different from its successor's (executable companion of
`List.Chain'` on contents). -/
def succDistinct : List (Nat × String) → Bool
  | [] => true
  | [_] => true
  | p :: q :: rest => (p.2 != q.2) && succDistinct (q :: rest)

/-- Boolean check that the timestamps of an operation list are
nondecreasing (executable companion of `List.Chain'` on timestamps). -/
def tsMonotone : List (Nat × String) → Bool
  | [] => true
  | [_] => true
  | p :: q :: rest => Nat.ble p.1 q.1 && tsMonotone (q :: rest)

/-! ### Basic lemmas about `add_item_to_history` -/

theorem add_item_of_empty {c : String} (t : Nat) (h : History)
    (hc : (rustTrim c).isEmpty = true) :
    add_item_to_history c t h = (Except.ok (), h) := by
  simp [add_item_to_history, hc]

theorem add_item_of_dup {c : String} (t : Nat) {h : History}
    (hc : (rustTrim c).isEmpty = false)
    (hd : isDuplicateOfFront c h = true) :
    add_item_to_history c t h = (Except.ok (), h) := by
  simp [add_item_to_history, hc, hd]

theorem add_item_of_push {c : String} (t : Nat) {h : History}
    (hc : (rustTrim c).isEmpty = false)
    (hd : isDuplicateOfFront c h = false) :
    add_item_to_history c t h =
      (Except.ok (),
        if h.length + 1 > 100
        then ((⟨t + h.length, c, t, "text"⟩ : ClipboardItem) :: h).dropLast
        else (⟨t + h.length, c, t, "text"⟩ : ClipboardItem) :: h) := by
  simp [add_item_to_history, hc, hd]

theorem isDuplicateOfFront_iff (c : String) (h : History) :
    isDuplicateOfFront c h = true ↔
      ∃ latest, h.head? = some latest ∧ latest.content = c := by
  cases h with
  | nil => simp [isDuplicateOfFront]
  | cons a tl => simp [isDuplicateOfFront]

theorem add_item_ne_of_push {c : String} (t : Nat) {h : History}
    (hc : (rustTrim c).isEmpty = false)
    (hd : isDuplicateOfFront c h = false) :
    (add_item_to_history c t h).2 ≠ h := by
  rw [add_item_of_push t hc hd]
  by_cases hlen : h.length + 1 > 100
  · simp only [hlen, if_pos]
    have hne : h ≠ [] := by
      intro hnil
      rw [hnil] at hlen
      simp at hlen
    rw [List.dropLast_cons_of_ne_nil hne]
    intro heq
    have hhead : h.head? = some (⟨t + h.length, c, t, "text"⟩ : ClipboardItem) := by
      conv_lhs => rw [← heq]
      rfl
    have : isDuplicateOfFront c h = true := by
      rw [isDuplicateOfFront_iff]
      exact ⟨_, hhead, rfl⟩
    rw [this] at hd
    simp at hd
  · simp only [hlen, if_neg, not_false_iff]
    exact List.cons_ne_self _ _

theorem add_item_head_of_push {c : String} (t : Nat) {h : History}
    (hc : (rustTrim c).isEmpty = false)
    (hd : isDuplicateOfFront c h = false) :
    (add_item_to_history c t h).2.head? =
      some ⟨t + h.length, c, t, "text"⟩ := by
  rw [add_item_of_push t hc hd]
  by_cases hlen : h.length + 1 > 100
  · simp only [hlen, if_pos]
    have hne : h ≠ [] := by
      intro hnil
      rw [hnil] at hlen
      simp at hlen
    rw [List.dropLast_cons_of_ne_nil hne]
    rfl
  · simp only [hlen, if_neg, not_false_iff]
    rfl

/-! ### C1 -/

/-- C1 counterexample: `add_item_to_history` does not return whether an
insertion occurred.  The call `add_item_to_history "a" 0 []` performs an
insertion and the call `add_item_to_history "" 0 []` is a no-op, yet
both return the very same value (`Ok(())`), so the returned value cannot
indicate whether an insertion occurred. -/
theorem C1_counterexample :
    (add_item_to_history "a" 0 []).1 = (add_item_to_history "" 0 []).1 ∧
    (add_item_to_history "a" 0 []).2 ≠ [] ∧
    (add_item_to_history "" 0 []).2 = [] :=
  ⟨rfl, by decide, by decide⟩

/-- C1 (amended): for every store and content `c`,
`add_item_to_history c` is a no-op on the store iff `c` is
empty/whitespace-only (after trimming) or equal to the current front
entry's content; otherwise it pushes a new entry with content `c` at the
front; in every case it returns `Ok(())` — the result does not report
whether an insertion occurred.  Inserting "a", "b", "a" into an empty
store yields contents ["a","b","a"] front-to-back, the second "a" being
compared only against the front entry. -/
theorem C1_insert_contract (c : String) (t : Nat) (h : History) :
    (add_item_to_history c t h).1 = Except.ok () ∧
    (isDuplicateOfFront c h = true ↔
      ∃ latest, h.head? = some latest ∧ latest.content = c) ∧
    ((add_item_to_history c t h).2 = h ↔
      ((rustTrim c).isEmpty = true ∨ isDuplicateOfFront c h = true)) ∧
    (((rustTrim c).isEmpty = false ∧ isDuplicateOfFront c h = false) →
      (add_item_to_history c t h).2.head? =
        some ⟨t + h.length, c, t, "text"⟩) ∧
    (runInserts [(0, "a"), (1, "b"), (2, "a")] []).map ClipboardItem.content
      = ["a", "b", "a"] := by
  refine ⟨?_, isDuplicateOfFront_iff c h, ?_, ?_, by decide⟩
  · by_cases hc : (rustTrim c).isEmpty = true
    · rw [add_item_of_empty t h hc]
    · rw [Bool.not_eq_true] at hc
      by_cases hd : isDuplicateOfFront c h = true
      · rw [add_item_of_dup t hc hd]
      · rw [Bool.not_eq_true] at hd
        rw [add_item_of_push t hc hd]
  · constructor
    · intro heq
      by_contra hcon
      push_neg at hcon
      obtain ⟨hc, hd⟩ := hcon
      simp only [ne_eq, Bool.not_eq_true] at hc hd
      exact add_item_ne_of_push t hc hd heq
    · intro hcase
      rcases hcase with hc | hd
      · rw [add_item_of_empty t h hc]
      · by_cases hc : (rustTrim c).isEmpty = true
        · rw [add_item_of_empty t h hc]
        · rw [Bool.not_eq_true] at hc
          rw [add_item_of_dup t hc hd]
  · rintro ⟨hc, hd⟩
    exact add_item_head_of_push t hc hd

/-- C1 witness: the amended contract instantiated at content "x",
timestamp 3 and the empty store. -/
theorem C1_witness :
    ((rustTrim "x").isEmpty = false ∧ isDuplicateOfFront "x" [] = false) ∧
    (add_item_to_history "x" 3 []).2.head? = some ⟨3, "x", 3, "text"⟩ :=
  ⟨⟨by decide, by decide⟩,
    (C1_insert_contract "x" 3 []).2.2.2.1 ⟨by decide, by decide⟩⟩

/-! ### C4 -/

theorem runChecks_false (n : Nat) :
    runChecks n false = (List.replicate n false, false) := by
  induction n with
  | zero => rfl
  | succ k ih => simp [runChecks, check_and_clear, ih, List.replicate]

/-- C4: after `arm()` (from any prior flag state), exactly one
subsequent `check_and_clear()` returns true — resetting the flag to
false — and every further `check_and_clear()` before the next `arm()`
returns false; arming while already armed has no additional effect. -/
theorem C4_gate_single_slot (n : Nat) (armed : Bool) :
    runChecks (n + 1) (armGate armed) = (true :: List.replicate n false, false) ∧
    armGate (armGate armed) = armGate armed := by
  refine ⟨?_, rfl⟩
  simp [runChecks, check_and_clear, armGate, runChecks_false]

/-! ### C5 -/

/-- C5: `copy_to_clipboard` arms the suppression gate and only then
attempts the OS clipboard write (its trace is `armed` followed by the
write attempt); the flag is true in the post-state; a successful write
returns `Ok(())`; a failed write returns the failure as an error and
leaves the flag armed. -/
theorem C5_copy_contract (content : String) (writeResult : Except String Unit)
    (flag : Bool) :
    (copy_to_clipboard content writeResult flag).2.2
      = [CopyEvent.armed, CopyEvent.wroteAttempt content] ∧
    (copy_to_clipboard content writeResult flag).2.1 = true ∧
    (writeResult = Except.ok () →
      (copy_to_clipboard content writeResult flag).1 = Except.ok ()) ∧
    (∀ e, writeResult = Except.error e →
      (copy_to_clipboard content writeResult flag).1
        = Except.error ("Failed to write to clipboard: " ++ e) ∧
      (copy_to_clipboard content writeResult flag).2.1 = true) := by
  cases writeResult with
  | ok u =>
    cases u
    refine ⟨rfl, rfl, fun _ => rfl, fun e he => ?_⟩
    cases he
  | error e =>
    refine ⟨rfl, rfl, fun h => ?_, fun f hf => ?_⟩
    · cases h
    · cases hf
      exact ⟨rfl, rfl⟩

/-- C5 witness: a failing write with message "boom", starting from a
disarmed gate: the error is propagated and the flag stays armed. -/
theorem C5_witness :
    (copy_to_clipboard "s" (Except.error "boom") false).1
      = Except.error ("Failed to write to clipboard: " ++ "boom") ∧
    (copy_to_clipboard "s" (Except.error "boom") false).2.1 = true :=
  (C5_copy_contract "s" (Except.error "boom") false).2.2.2 "boom" rfl

/-! ### C8 -/

/-- C8: `start_clipboard_monitoring` has no double-start guard — it
unconditionally spawns a monitor loop.  Starting twice from a fresh
session leaves two competing polling loops, not one. -/
theorem C8_failing_double_start :
    (start_clipboard_monitoring 0).1 = Except.ok () ∧
    (start_clipboard_monitoring (start_clipboard_monitoring 0).2).1
      = Except.ok () ∧
    (start_clipboard_monitoring (start_clipboard_monitoring 0).2).2 = 2 ∧
    (2 : Nat) ≠ 1 :=
  ⟨rfl, rfl, rfl, by decide⟩

/-! ### C9 -/

/-- C9 counterexample: the two rejection checks of
`add_item_to_history` do not use one consistent trimming convention.
The emptiness check trims (the non-empty string " " is rejected, so the
check is not on the untrimmed text), while the front-duplicate check
does not trim (" a " is inserted over front "a" although the two are
equal after trimming, so the check is not on the trimmed text). -/
theorem C9_counterexample :
    ((add_item_to_history " " 0 []).2 = [] ∧ (" " : String) ≠ "") ∧
    ((add_item_to_history " a " 1 [⟨0, "a", 0, "text"⟩]).2.length = 2 ∧
      rustTrim " a " = rustTrim "a") :=
  ⟨⟨by decide, by decide⟩, ⟨by decide, by decide⟩⟩

/-- C9 (amended): the emptiness rejection compares trimmed text
(whitespace-only content is a no-op), whereas the front-duplicate
rejection compares untrimmed text exactly (content equal to the front
is a no-op, while content differing from the front — even only in
surrounding whitespace — is pushed). -/
theorem C9_mixed_conventions (c : String) (t : Nat) (h : History) :
    ((rustTrim c).isEmpty = true → (add_item_to_history c t h).2 = h) ∧
    (∀ latest, h.head? = some latest → latest.content = c →
      (add_item_to_history c t h).2 = h) ∧
    ((rustTrim c).isEmpty = false →
      ∀ latest, h.head? = some latest → latest.content ≠ c →
      (add_item_to_history c t h).2.head?
        = some ⟨t + h.length, c, t, "text"⟩) := by
  refine ⟨fun hc => by rw [add_item_of_empty t h hc], ?_, ?_⟩
  · intro latest hhead hcontent
    by_cases hc : (rustTrim c).isEmpty = true
    · rw [add_item_of_empty t h hc]
    · rw [Bool.not_eq_true] at hc
      have hd : isDuplicateOfFront c h = true :=
        (isDuplicateOfFront_iff c h).mpr ⟨latest, hhead, hcontent⟩
      rw [add_item_of_dup t hc hd]
  · intro hc latest hhead hcontent
    have hd : isDuplicateOfFront c h = false := by
      rw [← Bool.not_eq_true, isDuplicateOfFront_iff]
      rintro ⟨x, hx, hxc⟩
      rw [hhead] at hx
      cases hx
      exact hcontent hxc
    exact add_item_head_of_push t hc hd

/-- C9 witness: inserting " a " over front "a" (equal after trimming,
distinct untrimmed): the untrimmed duplicate check lets it through and
it lands at the front. -/
theorem C9_witness :
    (add_item_to_history " a " 1 [⟨0, "a", 0, "text"⟩]).2.head?
      = some ⟨2, " a ", 1, "text"⟩ :=
  (C9_mixed_conventions " a " 1 [⟨0, "a", 0, "text"⟩]).2.2 (by decide)
    ⟨0, "a", 0, "text"⟩ rfl (by decide)

/-! ### C3 -/

/-- C3 counterexample: a monitor iteration in which the observed value
"a" differs from the last-observed value "old", is non-empty after
trimming, and is not suppressed (flag false), but equals the current
front entry's content: the loop hits `continue` and the last-observed
value stays "old" instead of being updated to "a" — so the update does
not happen "regardless of whether a history insertion occurred". -/
theorem C3_counterexample :
    (monitorStep (some "a") 7
      ⟨[⟨5, "a", 5, "text"⟩], false, "old"⟩).1.lastClipboard = "old" ∧
    ("old" : String) ≠ "a" ∧
    (monitorStep (some "a") 7
      ⟨[⟨5, "a", 5, "text"⟩], false, "old"⟩).1.history
      = [⟨5, "a", 5, "text"⟩] :=
  ⟨by decide, by decide, by decide⟩

/-- C3 (amended): in a monitor iteration whose observed value differs
from the last-observed value and is non-empty after trimming, the
last-observed value is updated to the new value when the change is
suppressed and when an insertion occurs; but when the value equals the
current front entry's content the iteration is skipped (`continue`)
without updating the last-observed value — the whole state is left
unchanged. -/
theorem C3_last_observed (s : SysState) (c : String) (t : Nat)
    (hch : c ≠ s.lastClipboard) (hne : (rustTrim c).isEmpty = false) :
    (s.ignoreFlag = true → (monitorStep (some c) t s).1.lastClipboard = c) ∧
    (s.ignoreFlag = false → isDuplicateOfFront c s.history = false →
      (monitorStep (some c) t s).1.lastClipboard = c ∧
      (monitorStep (some c) t s).1.history.head?
        = some ⟨t + s.history.length, c, t, "text"⟩) ∧
    (s.ignoreFlag = false → isDuplicateOfFront c s.history = true →
      monitorStep (some c) t s = (s, [])) := by
  refine ⟨?_, ?_, ?_⟩
  · intro hflag
    simp [monitorStep, hch, hne, hflag]
  · intro hflag hd
    constructor
    · simp [monitorStep, hch, hne, hflag, hd]
    · simp only [monitorStep, hch, hne, hflag, hd]
      simp only [ne_eq, hch, not_false_iff, and_self, if_true, Bool.false_eq_true,
        if_false]
      by_cases hlen : s.history.length + 1 > 100
      · simp only [List.length_cons, hlen, if_pos]
        have hnil : s.history ≠ [] := by
          intro h0
          rw [h0] at hlen
          simp at hlen
        rw [List.dropLast_cons_of_ne_nil hnil]
        rfl
      · simp only [List.length_cons, hlen, if_neg, not_false_iff]
        rfl
  · intro hflag hd
    simp [monitorStep, hch, hne, hflag, hd]

/-- C3 witness: the amended statement at the counterexample's state
(front "a", last-observed "old", flag false): the duplicate branch
leaves the state unchanged. -/
theorem C3_witness :
    monitorStep (some "a") 7 ⟨[⟨5, "a", 5, "text"⟩], false, "old"⟩
      = (⟨[⟨5, "a", 5, "text"⟩], false, "old"⟩, []) :=
  (C3_last_observed ⟨[⟨5, "a", 5, "text"⟩], false, "old"⟩ "a" 7
    (by decide) (by decide)).2.2 rfl (by decide)

/-! ### C7 -/

theorem insertedContents_append (a b : List Event) :
    insertedContents (a ++ b) = insertedContents a ++ insertedContents b := by
  induction a with
  | nil => rfl
  | cons e rest ih => cases e <;> simp [insertedContents, ih]

theorem emittedContents_append (a b : List Event) :
    emittedContents (a ++ b) = emittedContents a ++ emittedContents b := by
  induction a with
  | nil => rfl
  | cons e rest ih => cases e <;> simp [emittedContents, ih]

theorem monitorStep_events_balanced (r : Option String) (t : Nat)
    (s : SysState) :
    emittedContents (monitorStep r t s).2
      = insertedContents (monitorStep r t s).2 := by
  cases r with
  | none => rfl
  | some c =>
    simp only [monitorStep]
    split
    · split
      · rfl
      · split
        · rfl
        · rfl
    · rfl

theorem monitorRun_events_balanced (polls : List (Option String × Nat))
    (s : SysState) :
    emittedContents (monitorRun polls s).2
      = insertedContents (monitorRun polls s).2 := by
  induction polls generalizing s with
  | nil => rfl
  | cons p rest ih =>
    obtain ⟨r, t⟩ := p
    simp only [monitorRun, emittedContents_append, insertedContents_append,
      monitorStep_events_balanced, ih]

theorem monitorStep_insert {s : SysState} {c : String} (t : Nat)
    (hflag : s.ignoreFlag = false) (hch : c ≠ s.lastClipboard)
    (hne : (rustTrim c).isEmpty = false)
    (hd : isDuplicateOfFront c s.history = false) :
    monitorStep (some c) t s
      = ({ history := (add_item_to_history c t s.history).2,
           ignoreFlag := false, lastClipboard := c },
         [Event.inserted ⟨t + s.history.length, c, t, "text"⟩,
          Event.emitted c]) := by
  rw [add_item_of_push t hne hd]
  simp [monitorStep, hch, hne, hflag, hd]

/-- C7 counterexample: the manual `add_to_history` path performs an
insertion (visible to `get_clipboard_history`) but emits no
history-changed notification at all — so it is not the case that every
insertion into the store, whichever path performed it, is followed by a
corresponding notification. -/
theorem C7_counterexample :
    (add_to_history "a" 5 []).2.1 = [⟨5, "a", 5, "text"⟩] ∧
    (add_to_history "a" 5 []).2.2 = [] :=
  ⟨by decide, rfl⟩

/-- C7 (amended): for insertions performed by the monitor loop, a
"clipboard-updated" notification carrying the inserted content is
emitted after the insertion is visible in the store (the iteration's
trace is the insertion followed by the emission, and the post-state's
front is the inserted item); a rejected (duplicate-of-front) iteration
emits nothing; over any run, notifications appear in exactly the order
of the insertions (the emitted payloads equal the inserted contents, in
order).  The manual `add_to_history` path, however, emits no
notification. -/
theorem C7_notifications (s : SysState) (c : String) (t : Nat) :
    (s.ignoreFlag = false → c ≠ s.lastClipboard →
      (rustTrim c).isEmpty = false →
      isDuplicateOfFront c s.history = false →
      (monitorStep (some c) t s).2
        = [Event.inserted ⟨t + s.history.length, c, t, "text"⟩,
           Event.emitted c] ∧
      (monitorStep (some c) t s).1.history.head?
        = some ⟨t + s.history.length, c, t, "text"⟩) ∧
    (isDuplicateOfFront c s.history = true →
      (monitorStep (some c) t s).2 = []) ∧
    (add_to_history c t s.history).2.2 = [] ∧
    (∀ polls s2, emittedContents (monitorRun polls s2).2
      = insertedContents (monitorRun polls s2).2) := by
  refine ⟨?_, ?_, rfl, fun polls s2 => monitorRun_events_balanced polls s2⟩
  · intro hflag hch hne hd
    rw [monitorStep_insert t hflag hch hne hd]
    exact ⟨rfl, add_item_head_of_push t hne hd⟩
  · intro hd
    simp only [monitorStep]
    by_cases h1 : c ≠ s.lastClipboard ∧ (rustTrim c).isEmpty = false
    · by_cases h2 : s.ignoreFlag
      · simp [h1, h2]
      · simp [h1, h2, hd]
    · simp [h1]

/-- C7 witness: a genuine monitor insertion of "a" into an empty store
(last-observed "z", flag false): trace = insertion then emission, and
the inserted item is at the front of the post-state. -/
theorem C7_witness :
    (monitorStep (some "a") 5 ⟨[], false, "z"⟩).2
      = [Event.inserted ⟨5, "a", 5, "text"⟩, Event.emitted "a"] ∧
    (monitorStep (some "a") 5 ⟨[], false, "z"⟩).1.history.head?
      = some ⟨5, "a", 5, "text"⟩ :=
  (C7_notifications ⟨[], false, "z"⟩ "a" 5).1 rfl (by decide) (by decide)
    (by decide)

/-! ### C10 -/

theorem monitorStep_unchanged_value (t : Nat) {s : SysState} {c : String}
    (hc : s.lastClipboard = c) :
    monitorStep (some c) t s = (s, []) := by
  simp [monitorStep, hc]

theorem monitorRun_unchanged_value (ts : List Nat) {s : SysState}
    {c : String} (hc : s.lastClipboard = c) :
    monitorRun (ts.map (fun t => (some c, t))) s = (s, []) := by
  induction ts with
  | nil => rfl
  | cons t rest ih =>
    simp only [List.map_cons, monitorRun, monitorStep_unchanged_value t hc, ih,
      List.nil_append]

/-- C10: `clear_clipboard_history` empties the stored sequence and
changes nothing else: the ignore flag and the monitor's last-observed
value are untouched.  Consequently, in a state where the last-observed
value equals the current clipboard value `c`, after `clear()` any
number of monitor polls that keep reading `c` re-insert nothing (the
store stays empty, the whole state is unchanged, and no notification is
emitted) — `c` only re-enters history once the clipboard changes to a
different value. -/
theorem C10_clear_frame (s : SysState) (c : String)
    (hc : s.lastClipboard = c) (ts : List Nat) :
    (clear_clipboard_history s).1 = Except.ok () ∧
    (clear_clipboard_history s).2.history = [] ∧
    (clear_clipboard_history s).2.lastClipboard = s.lastClipboard ∧
    (clear_clipboard_history s).2.ignoreFlag = s.ignoreFlag ∧
    monitorRun (ts.map (fun t => (some c, t))) (clear_clipboard_history s).2
      = ((clear_clipboard_history s).2, []) := by
  refine ⟨rfl, rfl, rfl, rfl, ?_⟩
  exact monitorRun_unchanged_value ts hc

/-- C10 witness: clearing a one-item store whose last-observed value
"x" matches the clipboard, then polling "x" three times: the store
stays empty and nothing is emitted. -/
theorem C10_witness :
    (clear_clipboard_history ⟨[⟨1, "x", 1, "text"⟩], false, "x"⟩).2.history
      = [] ∧
    monitorRun ([2, 3, 4].map (fun t => (some "x", t)))
        (clear_clipboard_history ⟨[⟨1, "x", 1, "text"⟩], false, "x"⟩).2
      = ((clear_clipboard_history ⟨[⟨1, "x", 1, "text"⟩], false, "x"⟩).2, []) :=
  ⟨(C10_clear_frame ⟨[⟨1, "x", 1, "text"⟩], false, "x"⟩ "x" rfl [2, 3, 4]).2.1,
   (C10_clear_frame ⟨[⟨1, "x", 1, "text"⟩], false, "x"⟩ "x" rfl [2, 3, 4]).2.2.2.2⟩

/-! ### C2 -/

theorem add_item_length_le {c : String} (t : Nat) {h : History}
    (hlen : h.length ≤ 100) :
    (add_item_to_history c t h).2.length ≤ 100 := by
  by_cases hc : (rustTrim c).isEmpty = true
  · rw [add_item_of_empty t h hc]
    exact hlen
  · rw [Bool.not_eq_true] at hc
    by_cases hd : isDuplicateOfFront c h = true
    · rw [add_item_of_dup t hc hd]
      exact hlen
    · rw [Bool.not_eq_true] at hd
      rw [add_item_of_push t hc hd]
      by_cases hl : h.length + 1 > 100
      · simp only [hl, if_pos, List.length_dropLast, List.length_cons]
        omega
      · simp only [hl, if_neg, not_false_iff, List.length_cons]
        omega

theorem runInserts_cons (p : Nat × String) (ops : List (Nat × String))
    (h : History) :
    runInserts (p :: ops) h = runInserts ops (add_item_to_history p.2 p.1 h).2 :=
  rfl

theorem runInserts_length_le (ops : List (Nat × String)) (h : History)
    (hlen : h.length ≤ 100) : (runInserts ops h).length ≤ 100 := by
  induction ops generalizing h with
  | nil => exact hlen
  | cons p rest ih =>
    rw [runInserts_cons]
    exact ih _ (add_item_length_le p.1 hlen)

theorem take_append_take {α : Type} (n : Nat) (A B : List α) :
    (A ++ B.take n).take n = (A ++ B).take n := by
  rw [List.take_append_eq_append_take, List.take_append_eq_append_take,
    List.take_take, Nat.min_eq_left (Nat.sub_le n A.length)]

theorem add_item_contents {c : String} (t : Nat) {h : History}
    (hc : (rustTrim c).isEmpty = false) (hd : isDuplicateOfFront c h = false)
    (hlen : h.length ≤ 100) :
    (add_item_to_history c t h).2.map ClipboardItem.content
      = (c :: h.map ClipboardItem.content).take 100 := by
  rw [add_item_of_push t hc hd]
  by_cases hl : h.length + 1 > 100
  · simp only [hl, if_pos]
    have h100 : h.length = 100 := by omega
    rw [List.dropLast_eq_take, List.length_cons, Nat.add_sub_cancel, h100,
      List.map_take, List.map_cons]
  · simp only [hl, if_neg, not_false_iff]
    rw [List.map_cons, List.take_of_length_le]
    simp only [List.length_cons, List.length_map]
    omega

theorem runInserts_contents (ops : List (Nat × String)) (h : History)
    (hv : ∀ p ∈ ops, (rustTrim p.2).isEmpty = false)
    (hchain : List.Chain' (fun p q : Nat × String => p.2 ≠ q.2) ops)
    (hfirst : ∀ q ∈ ops.head?, isDuplicateOfFront q.2 h = false)
    (hlen : h.length ≤ 100) :
    (runInserts ops h).map ClipboardItem.content
      = ((ops.map Prod.snd).reverse ++ h.map ClipboardItem.content).take 100 := by
  induction ops generalizing h with
  | nil =>
    simp only [runInserts, List.foldl_nil, List.map_nil, List.reverse_nil,
      List.nil_append]
    rw [List.take_of_length_le (by simpa using hlen)]
  | cons p rest ih =>
    obtain ⟨t, c⟩ := p
    obtain ⟨hrel, hchain2⟩ := List.chain'_cons'.mp hchain
    have hc : (rustTrim c).isEmpty = false := hv (t, c) (List.mem_cons_self _ _)
    have hd : isDuplicateOfFront c h = false := hfirst (t, c) (by simp)
    have hlen2 : (add_item_to_history c t h).2.length ≤ 100 :=
      add_item_length_le t hlen
    have hhead : (add_item_to_history c t h).2.head?
        = some ⟨t + h.length, c, t, "text"⟩ := add_item_head_of_push t hc hd
    have hfirst2 : ∀ q ∈ rest.head?,
        isDuplicateOfFront q.2 (add_item_to_history c t h).2 = false := by
      intro q hq
      simp only [isDuplicateOfFront, hhead]
      have : c ≠ q.2 := hrel q hq
      simp only [beq_eq_false_iff_ne, ne_eq]
      exact this
    rw [runInserts_cons,
      ih (add_item_to_history c t h).2
        (fun q hq => hv q (List.mem_cons_of_mem _ hq)) hchain2 hfirst2 hlen2,
      add_item_contents t hc hd hlen, take_append_take]
    simp only [List.map_cons, List.reverse_cons, List.append_assoc,
      List.cons_append, List.nil_append]

theorem chain'_of_succDistinct {ops : List (Nat × String)}
    (h : succDistinct ops = true) :
    List.Chain' (fun p q : Nat × String => p.2 ≠ q.2) ops := by
  induction ops with
  | nil => exact List.chain'_nil
  | cons p rest ih =>
    cases rest with
    | nil => exact List.chain'_singleton p
    | cons q rest2 =>
      simp only [succDistinct, Bool.and_eq_true, bne_iff_ne, ne_eq] at h
      exact List.Chain'.cons h.1 (ih h.2)

/-- C2: starting from the empty store, the length never exceeds 100 for
any sequence of insert operations; and after 101 insertions of
non-whitespace values each distinct from its predecessor, the store has
exactly 100 entries whose contents are the last 100 values
newest-first: the front is the 101st value, the back is the 2nd value,
the 1st value having been evicted from the tail. -/
theorem C2_capacity (ops : List (Nat × String))
    (hlen : ops.length = 101)
    (hv : ∀ p ∈ ops, (rustTrim p.2).isEmpty = false)
    (hchain : List.Chain' (fun p q : Nat × String => p.2 ≠ q.2) ops) :
    (∀ ops2 : List (Nat × String), (runInserts ops2 []).length ≤ 100) ∧
    (runInserts ops []).length = 100 ∧
    (runInserts ops []).map ClipboardItem.content
      = (ops.map Prod.snd).reverse.take 100 ∧
    ((runInserts ops []).map ClipboardItem.content).head?
      = (ops.map Prod.snd).getLast? ∧
    ((runInserts ops []).map ClipboardItem.content).getLast?
      = (ops.map Prod.snd).get? 1 := by
  have hvs : (ops.map Prod.snd).length = 101 := by
    rw [List.length_map, hlen]
  have hcontents : (runInserts ops []).map ClipboardItem.content
      = (ops.map Prod.snd).reverse.take 100 := by
    have := runInserts_contents ops [] hv hchain (by simp [isDuplicateOfFront])
      (by simp)
    simpa using this
  have hclen : (runInserts ops []).length = 100 := by
    have := congrArg List.length hcontents
    rw [List.length_map, List.length_take, List.length_reverse, hvs] at this
    simpa using this
  refine ⟨fun ops2 => runInserts_length_le ops2 [] (by simp), hclen,
    hcontents, ?_, ?_⟩
  · have hne : (ops.map Prod.snd).reverse ≠ [] := by
      intro h0
      have := congrArg List.length h0
      rw [List.length_reverse, hvs] at this
      simp at this
    obtain ⟨a, l2, hrev⟩ := List.exists_cons_of_ne_nil hne
    rw [hcontents, hrev]
    have : (ops.map Prod.snd).getLast? = (a :: l2).head? := by
      rw [← List.head?_reverse, hrev]
    rw [this]
    rfl
  · rw [hcontents, List.getLast?_eq_get?]
    have hl1 : ((ops.map Prod.snd).reverse.take 100).length = 100 := by
      rw [List.length_take, List.length_reverse, hvs]
      decide
    rw [hl1]
    rw [List.get?_take (by omega)]
    rw [List.get?_reverse (by omega)]
    rw [hvs]

/-- C2 witness: 101 alternating values "a","b",...,"a" (each non-empty
and distinct from its predecessor) inserted into the empty store leave
exactly 100 entries. -/
theorem C2_witness :
    (runInserts
      ((List.range 101).map (fun i => (i, if i % 2 = 0 then "a" else "b")))
      []).length = 100 :=
  (C2_capacity _ (by simp) (by decide)
    (chain'_of_succDistinct (by decide))).2.1

/-! ### C6 -/

theorem tsMonotone_chain' {ops : List (Nat × String)}
    (h : tsMonotone ops = true) :
    List.Chain' (fun p q : Nat × String => p.1 ≤ q.1) ops := by
  induction ops with
  | nil => exact List.chain'_nil
  | cons p rest ih =>
    cases rest with
    | nil => exact List.chain'_singleton p
    | cons q rest2 =>
      simp only [tsMonotone, Bool.and_eq_true] at h
      exact List.Chain'.cons (Nat.le_of_ble_eq_true h.1) (ih h.2)

theorem add_item_length_ge {c : String} (t : Nat) (h : History) :
    h.length ≤ (add_item_to_history c t h).2.length := by
  by_cases hc : (rustTrim c).isEmpty = true
  · rw [add_item_of_empty t h hc]
  · rw [Bool.not_eq_true] at hc
    by_cases hd : isDuplicateOfFront c h = true
    · rw [add_item_of_dup t hc hd]
    · rw [Bool.not_eq_true] at hd
      rw [add_item_of_push t hc hd]
      by_cases hl : h.length + 1 > 100
      · simp only [hl, if_pos, List.length_dropLast, List.length_cons]
        omega
      · simp only [hl, if_neg, not_false_iff, List.length_cons]
        omega

theorem add_item_noop_of_invalid {c : String} (t : Nat) {h : History}
    (hinv : ¬((rustTrim c).isEmpty = false ∧ isDuplicateOfFront c h = false)) :
    (add_item_to_history c t h).2 = h := by
  by_cases hc : (rustTrim c).isEmpty = true
  · rw [add_item_of_empty t h hc]
  · rw [Bool.not_eq_true] at hc
    by_cases hd : isDuplicateOfFront c h = true
    · rw [add_item_of_dup t hc hd]
    · rw [Bool.not_eq_true] at hd
      exact absurd ⟨hc, hd⟩ hinv

theorem add_item_length_push {c : String} (t : Nat) {h : History}
    (hc : (rustTrim c).isEmpty = false) (hd : isDuplicateOfFront c h = false)
    (hlt : h.length < 100) :
    (add_item_to_history c t h).2.length = h.length + 1 := by
  rw [add_item_of_push t hc hd]
  have hngt : ¬(h.length + 1 > 100) := by omega
  simp only [hngt, if_neg, not_false_iff, List.length_cons]

theorem runIds_mono_aux (ops : List (Nat × String)) (h : History) (t0 : Nat)
    (hch : List.Chain' (fun p q : Nat × String => p.1 ≤ q.1) ops)
    (h0 : ∀ p ∈ ops.head?, t0 ≤ p.1) :
    List.Chain' (· ≤ ·) (runIds ops h) ∧
    ∀ x ∈ runIds ops h, t0 + h.length ≤ x := by
  induction ops generalizing h t0 with
  | nil => exact ⟨List.chain'_nil, by simp [runIds]⟩
  | cons p rest ih =>
    obtain ⟨t, c⟩ := p
    obtain ⟨hrel, hch2⟩ := List.chain'_cons'.mp hch
    have ht0 : t0 ≤ t := h0 (t, c) (by simp)
    by_cases hvalid :
        (rustTrim c).isEmpty = false ∧ isDuplicateOfFront c h = false
    · have hrun : runIds ((t, c) :: rest) h
          = (t + h.length) :: runIds rest (add_item_to_history c t h).2 := by
        simp only [runIds, if_pos hvalid]
      obtain ⟨ihc, ihb⟩ := ih (add_item_to_history c t h).2 t hch2 hrel
      have hgrow : h.length ≤ (add_item_to_history c t h).2.length :=
        add_item_length_ge t h
      rw [hrun]
      constructor
      · rw [List.chain'_cons']
        refine ⟨fun y hy => ?_, ihc⟩
        have hmem := ihb y (List.mem_of_mem_head? hy)
        omega
      · intro x hx
        rcases List.mem_cons.mp hx with hx | hx
        · subst hx
          omega
        · have := ihb x hx
          omega
    · have hrun : runIds ((t, c) :: rest) h = runIds rest h := by
        simp only [runIds, if_neg hvalid]
        rw [add_item_noop_of_invalid t hvalid]
      obtain ⟨ihc, ihb⟩ := ih h t hch2 hrel
      rw [hrun]
      refine ⟨ihc, fun x hx => ?_⟩
      have := ihb x hx
      omega

theorem runIds_strict_aux (ops : List (Nat × String)) (h : History)
    (t0 : Nat)
    (hch : List.Chain' (fun p q : Nat × String => p.1 ≤ q.1) ops)
    (h0 : ∀ p ∈ ops.head?, t0 ≤ p.1)
    (hcap : h.length + ops.length ≤ 100) :
    List.Chain' (· < ·) (runIds ops h) ∧
    ∀ x ∈ runIds ops h, t0 + h.length ≤ x := by
  induction ops generalizing h t0 with
  | nil => exact ⟨List.chain'_nil, by simp [runIds]⟩
  | cons p rest ih =>
    obtain ⟨t, c⟩ := p
    obtain ⟨hrel, hch2⟩ := List.chain'_cons'.mp hch
    have ht0 : t0 ≤ t := h0 (t, c) (by simp)
    have hlt : h.length < 100 := by
      simp only [List.length_cons] at hcap
      omega
    by_cases hvalid :
        (rustTrim c).isEmpty = false ∧ isDuplicateOfFront c h = false
    · have hrun : runIds ((t, c) :: rest) h
          = (t + h.length) :: runIds rest (add_item_to_history c t h).2 := by
        simp only [runIds, if_pos hvalid]
      have hsucc : (add_item_to_history c t h).2.length = h.length + 1 :=
        add_item_length_push t hvalid.1 hvalid.2 hlt
      have hcap2 : (add_item_to_history c t h).2.length + rest.length ≤ 100 := by
        simp only [List.length_cons] at hcap
        omega
      obtain ⟨ihc, ihb⟩ := ih (add_item_to_history c t h).2 t hch2 hrel hcap2
      rw [hrun]
      constructor
      · rw [List.chain'_cons']
        refine ⟨fun y hy => ?_, ihc⟩
        have hmem := ihb y (List.mem_of_mem_head? hy)
        omega
      · intro x hx
        rcases List.mem_cons.mp hx with hx | hx
        · subst hx
          omega
        · have := ihb x hx
          omega
    · have hrun : runIds ((t, c) :: rest) h = runIds rest h := by
        simp only [runIds, if_neg hvalid]
        rw [add_item_noop_of_invalid t hvalid]
      have hcap2 : h.length + rest.length ≤ 100 := by
        simp only [List.length_cons] at hcap
        omega
      obtain ⟨ihc, ihb⟩ := ih h t hch2 hrel hcap2
      rw [hrun]
      refine ⟨ihc, fun x hx => ?_⟩
      have := ihb x hx
      omega

/-- C6 counterexample: two successful insertions whose second timestamp
is smaller (the system clock stepped back one second) receive the very
same id 10 = 10 + 0 = 9 + 1 — the assigned ids are not pairwise
distinct. -/
theorem C6_counterexample :
    runIds [(10, "a"), (9, "b")] [] = [10, 10] ∧
    ¬ List.Pairwise (fun x y : Nat => x ≠ y) (runIds [(10, "a"), (9, "b")] []) :=
  ⟨by decide, by decide⟩

/-- C6 (amended): if the timestamps of the run are nondecreasing, the
assigned ids are monotonically assigned (a later insertion never
receives a smaller id); if moreover the whole run has at most 100
operations (so every insertion happens below capacity), the ids are
strictly increasing and hence pairwise distinct.  (Without these
hypotheses ids can collide, e.g. when the clock steps backward or when
two same-second insertions happen at full capacity.) -/
theorem C6_id_monotonicity (ops : List (Nat × String))
    (hch : List.Chain' (fun p q : Nat × String => p.1 ≤ q.1) ops) :
    List.Chain' (· ≤ ·) (runIds ops []) ∧
    (ops.length ≤ 100 →
      List.Chain' (· < ·) (runIds ops []) ∧
      List.Pairwise (· ≠ ·) (runIds ops [])) := by
  refine ⟨(runIds_mono_aux ops [] 0 hch fun p _ => Nat.zero_le _).1,
    fun hlen => ?_⟩
  have hstrict :=
    (runIds_strict_aux ops [] 0 hch (fun p _ => Nat.zero_le _)
      (by simpa using hlen)).1
  refine ⟨hstrict, ?_⟩
  have hpair : List.Pairwise (· < ·) (runIds ops []) :=
    List.chain'_iff_pairwise.mp hstrict
  exact hpair.imp Nat.ne_of_lt

/-- C6 witness: two insertions with increasing timestamps get strictly
increasing, pairwise distinct ids. -/
theorem C6_witness :
    List.Chain' (· < ·) (runIds [(1, "a"), (2, "b")] []) ∧
    List.Pairwise (· ≠ ·) (runIds [(1, "a"), (2, "b")] []) :=
  (C6_id_monotonicity [(1, "a"), (2, "b")]
    (tsMonotone_chain' (by decide))).2 (by decide)
